import Mathlib

/-!
Shallow embedding of the harmony repository's callback-correlation registry
(src/app/backends/service-response.ts), persisted-record base
(src/app/models/record.ts) and EOSS/OGC variable parsing (parseVariables).

JavaScript constructs are modelled explicitly:
* the `Map` `idsToCallbacks` is an association list with `Map.get`/`Map.set`/
  `Map.delete` semantics (`mapGet`, `mapSet`, `mapDelete`);
* `String.prototype.split` with a one-character separator is `splitChar` on
  the string's character list;
* the regex `/\/service\/(.*)/` is `captureAfter`: the text after the first
  occurrence of "/service/" (URLs carry no newline characters, so the
  JS-dot-excludes-newline subtlety does not arise on the regex's domain);
* thrown exceptions are `Except.error`; JS truthiness of `config.baseUrl`
  (null or empty string are falsy) is tested explicitly.
-/

deriving instance DecidableEq for Except

namespace Harmony

/-- `Map.get`: first value stored under the key, if any. -/
def mapGet {H : Type} : List (String × H) → String → Option H
  | [], _ => none
  | (k, v) :: rest, key => if k = key then some v else mapGet rest key

/-- `Map.set`: replace the value under an existing key, else append the entry. -/
def mapSet {H : Type} : List (String × H) → String → H → List (String × H)
  | [], key, v => [(key, v)]
  | (k, w) :: rest, key, v =>
    if k = key then (k, v) :: rest else (k, w) :: mapSet rest key v

/-- `Map.delete`: remove the entry stored under the key (keys are unique in a
JS `Map`, so removing the first occurrence models deletion). -/
def mapDelete {H : Type} : List (String × H) → String → List (String × H)
  | [], _ => []
  | (k, v) :: rest, key => if k = key then rest else (k, v) :: mapDelete rest key

/-- JS `str.split(sep)` for a one-character separator, on character lists. -/
def splitChar (sep : Char) : List Char → List (List Char)
  | [] => [[]]
  | c :: cs =>
    match splitChar sep cs with
    | [] => [[]]
    | t :: ts => if c = sep then [] :: t :: ts else (c :: t) :: ts

/-- Does `l` start with the pattern `p`? -/
def startsWithList : List Char → List Char → Bool
  | [], _ => true
  | _ :: _, [] => false
  | p :: ps, c :: cs => p = c && startsWithList ps cs

/-- Text after the first occurrence of the pattern `pat` in `l`, if `pat`
occurs (the capture group of an unanchored `/pat(.*)/` regex match). -/
def captureAfter (pat : List Char) : List Char → Option (List Char)
  | [] => if pat = [] then some [] else none
  | c :: cs =>
    if startsWithList pat (c :: cs) then some ((c :: cs).drop pat.length)
    else captureAfter pat cs

/-- The module-level mutable state of service-response.ts: the
`config.baseUrl` slot (initially `null`) and the `idsToCallbacks` map.
`H` is the type of response callbacks, which the registry never inspects. -/
structure SRState (H : Type) where
  baseUrl : Option String
  callbacks : List (String × H)
  deriving DecidableEq

/-- `url.split('/').pop()`: the last path segment of a URL. -/
def lastSegment (url : String) : String :=
  String.mk ((splitChar '/' url.data).getLastD [])

/-- `unbindResponseUrl(url)`: removes a callback URL / function binding;
does nothing if `url` is null/empty (JS falsy). -/
def unbindResponseUrl {H : Type} (url : String) (s : SRState H) : SRState H :=
  if url = "" then s
  else { s with callbacks := mapDelete s.callbacks (lastSegment url) }

/-- `bindResponseUrl(responseCallback)`: throws unless a (truthy) base URL is
configured, stores the callback under a freshly generated UUID, and returns
`config.baseUrl + callbackUUID` (note: plain string concatenation).  The
fresh UUID is passed in as `token`; v4 UUIDs are hex digits and hyphens. -/
def bindResponseUrl {H : Type} (token : String) (f : H) (s : SRState H) :
    Except String (String × SRState H) :=
  match s.baseUrl with
  | none => .error "Call configure(\x7b baseUrl \x7d) before calling bindResponseUrl"
  | some b =>
    if b = "" then
      .error "Call configure(\x7b baseUrl \x7d) before calling bindResponseUrl"
    else
      .ok (b ++ token, { s with callbacks := mapSet s.callbacks token f })

/-- The capture of `UUID_REGEX = /\/service\/(.*)/` against a URL. -/
def extractUuid (url : String) : Option String :=
  (captureAfter "/service/".data url.data).map String.mk

/-- `isUrlBound(callbackUrl)`: true iff the regex matches and the captured
UUID is present in the map (stored values are objects, hence truthy). -/
def isUrlBound {H : Type} (url : String) (s : SRState H) : Bool :=
  match extractUuid url with
  | some u => (mapGet s.callbacks u).isSome
  | none => false

/-- `responseHandler(req, res)`: looks up `req.params.uuid` in the map,
throws "Could not find response callback" if absent, otherwise calls the
stored callback.  The returned pair is the callback that was invoked and
the (unchanged) registry state; the source never removes the entry here. -/
def responseHandler {H : Type} (id : String) (s : SRState H) :
    Except String (H × SRState H) :=
  match mapGet s.callbacks id with
  | none => .error ("Could not find response callback for UUID " ++ id)
  | some f => .ok (f, s)

/-- JS `baseUrl.endsWith('/')`: is the last character a slash? -/
def endsWithSlash (b : String) : Bool := b.data.getLast? == some '/'

/-- `configure({ baseUrl })`: when `baseUrl` is truthy, computes the
slash-terminated `newUrl`, throws if a different (truthy) base URL is already
stored, and then assigns `config.baseUrl = baseUrl` — the source stores the
raw `baseUrl`, not the normalized `newUrl` it just computed. -/
def configure {H : Type} (baseUrl : Option String) (s : SRState H) :
    Except String (SRState H) :=
  match baseUrl with
  | none => .ok s
  | some b =>
    if b = "" then .ok s
    else
      let newUrl := b ++ (if endsWithSlash b then "" else "/")
      match s.baseUrl with
      | none => .ok { s with baseUrl := some b }
      | some old =>
        if old ≠ "" ∧ old ≠ newUrl then
          .error ("ServiceResponse baseUrl " ++ old ++ " would be overwritten by " ++ b)
        else .ok { s with baseUrl := some b }

/-- A record from src/app/models/record.ts: primary key `id`, timestamps
`createdAt`/`updatedAt` (unset = JS `undefined`, falsy; a set `Date` is
always truthy, hence `Option Nat` with logical timestamps), and the
subtype-declared remaining fields collapsed into `fields : α`. -/
structure Record (α : Type) where
  id : Option Nat
  createdAt : Option Nat
  updatedAt : Option Nat
  fields : α
  deriving DecidableEq

/-- The single database write that one `save` call issues through the
caller-supplied transaction: `transaction(table).insert(row)` or
`transaction(table).where({ id: key }).update(row)`. -/
inductive DbWrite (α : Type) where
  | insert (row : Record α)
  | update (key : Option Nat) (row : Record α)
  deriving DecidableEq

/-- The `TypeError` thrown by `save`: "Job record is invalid: " followed by
the JSON of the validation error list; the constructor carries the list. -/
inductive SaveError where
  | invalid (errors : List String)
  deriving DecidableEq

/-- `Record.save(transaction)`: validates (throwing on a non-null error
list), stamps `updatedAt = new Date()`, decides `newRecord = !this.createdAt`,
and either inserts (stamping `createdAt` and populating `id` from the value
the insert statement returns) or updates the row keyed by `this.id`.
`validate` is the subtype's override (the base returns `null`); `now` is the
clock reading and `generatedId` the id the database hands back on insert. -/
def Record.save {α : Type} (validate : Record α → Option (List String))
    (now : Nat) (generatedId : Nat) (r : Record α) :
    Except SaveError (Record α × DbWrite α) :=
  match validate r with
  | some errors => .error (.invalid errors)
  | none =>
    let r1 := { r with updatedAt := some now }
    if r1.createdAt = none then
      let r2 := { r1 with createdAt := some now }
      .ok ({ r2 with id := some generatedId }, .insert r2)
    else
      .ok (r1, .update r1.id r1)

/-- A sequence of `save` calls on the same record instance, each with its
clock reading and database-generated id; `none` when any save throws. -/
def saveChain {α : Type} (validate : Record α → Option (List String)) :
    List (Nat × Nat) → Record α → Option (Record α)
  | [], r => some r
  | (now, gid) :: rest, r =>
    match Record.save validate now gid r with
    | .ok (r', _) => saveChain validate rest r'
    | .error _ => none

/-- A UMM-Var variable as parseVariables consumes it: only `umm.Name` is
inspected. -/
structure CmrUmmVariable where
  ummName : String
  deriving DecidableEq

/-- A CMR collection: its concept id and its variables. -/
structure CmrCollection where
  id : String
  vars : List CmrUmmVariable
  deriving DecidableEq

/-- The result entries of parseVariables; the "all" branch pushes entries
without a `variables` field (JS `undefined`). -/
structure VariableInfo where
  collectionId : String
  vars : Option (List CmrUmmVariable)
  deriving DecidableEq

/-- The RequestValidationError class of util/errors. -/
inductive RequestError where
  | requestValidation (msg : String)
  deriving DecidableEq

/-- Inner loop of parseVariables' else-branch: for one collection, walk the
requested variable ids, collecting the matching variables and filtering the
found ids out of `missingVariables`. -/
def collectVars (collection : CmrCollection) :
    List String → List String → List CmrUmmVariable →
    List String × List CmrUmmVariable
  | [], missing, found => (missing, found)
  | variableId :: rest, missing, found =>
    match collection.vars.find? (fun v => v.ummName == variableId) with
    | some var0 =>
      collectVars collection rest (missing.filter (fun v => v != variableId))
        (found ++ [var0])
    | none => collectVars collection rest missing found

/-- Outer loop of parseVariables' else-branch over the collections. -/
def collectInfo (variableIds : List String) :
    List CmrCollection → List String → List VariableInfo →
    List String × List VariableInfo
  | [], missing, info => (missing, info)
  | collection :: rest, missing, info =>
    let (missing', vars) := collectVars collection variableIds missing []
    collectInfo variableIds rest missing'
      (info ++ [⟨collection.id, some vars⟩])

/-- `parseVariables(eosdisCollections, collectionIdParam)`: splits the OGC
collectionId parameter on commas; "all" must stand alone and selects every
collection with no variable subsetting; otherwise each requested id must
name a variable of some collection, and the per-collection matches are
returned, with a RequestValidationError when any id stays unmatched. -/
def parseVariables (eosdisCollections : List CmrCollection)
    (collectionIdParam : String) : Except RequestError (List VariableInfo) :=
  let variableIds := (splitChar ',' collectionIdParam.data).map String.mk
  if variableIds.contains "all" then
    if variableIds.length ≠ 1 then
      .error (.requestValidation "\"all\" cannot be specified alongside other variables")
    else
      .ok (eosdisCollections.map (fun c => ⟨c.id, none⟩))
  else
    let (missingVariables, variableInfo) :=
      collectInfo variableIds eosdisCollections variableIds []
    if missingVariables.length > 0 then
      .error (.requestValidation
        ("Coverages were not found for the provided CMR collection: "
          ++ String.intercalate ", " missingVariables))
    else
      .ok variableInfo

/-! Helper lemmas about the JS `Map` model. -/

theorem mapGet_mapSet_self {H : Type} (m : List (String × H)) (k : String) (v : H) :
    mapGet (mapSet m k v) k = some v := by
  induction m with
  | nil => simp [mapSet, mapGet]
  | cons p rest ih =>
    obtain ⟨k', w⟩ := p
    by_cases h : k' = k
    · subst h
      simp [mapSet, mapGet]
    · simp [mapSet, mapGet, h, ih]

theorem mem_of_mapGet_eq_some {H : Type} {m : List (String × H)} {k : String} {v : H}
    (h : mapGet m k = some v) : (k, v) ∈ m := by
  induction m with
  | nil => simp [mapGet] at h
  | cons p rest ih =>
    obtain ⟨k', w⟩ := p
    by_cases hk : k' = k
    · subst hk
      simp [mapGet] at h
      simp [h]
    · simp [mapGet, hk] at h
      exact List.mem_cons_of_mem _ (ih h)

theorem mapDelete_sublist {H : Type} (m : List (String × H)) (k : String) :
    (mapDelete m k).Sublist m := by
  induction m with
  | nil => simp [mapDelete]
  | cons p rest ih =>
    obtain ⟨k', w⟩ := p
    by_cases h : k' = k
    · simp only [mapDelete, if_pos h]
      exact List.sublist_cons_self _ _
    · simp only [mapDelete, if_neg h]
      exact List.Sublist.cons₂ _ ih

theorem mapGet_eq_none_of_not_mem_keys {H : Type} {m : List (String × H)} {k : String}
    (h : k ∉ m.map Prod.fst) : mapGet m k = none := by
  induction m with
  | nil => rfl
  | cons p rest ih =>
    obtain ⟨k', w⟩ := p
    rw [List.map_cons] at h
    have hne : k' ≠ k := fun he => h (by rw [he]; exact List.mem_cons_self _ _)
    have hrest : k ∉ rest.map Prod.fst := fun hm => h (List.mem_cons_of_mem _ hm)
    simp [mapGet, hne, ih hrest]

theorem mapGet_mapDelete_self {H : Type} (m : List (String × H)) (k : String)
    (hnodup : (m.map Prod.fst).Nodup) : mapGet (mapDelete m k) k = none := by
  induction m with
  | nil => rfl
  | cons p rest ih =>
    obtain ⟨k', w⟩ := p
    rw [List.map_cons, List.nodup_cons] at hnodup
    by_cases h : k' = k
    · subst h
      simp only [mapDelete, if_pos rfl]
      exact mapGet_eq_none_of_not_mem_keys hnodup.1
    · simp only [mapDelete, if_neg h]
      simp [mapGet, h, ih hnodup.2]

/-! Helper lemmas about `splitChar` and `captureAfter`. -/

theorem splitChar_ne_nil (sep : Char) (l : List Char) : splitChar sep l ≠ [] := by
  cases l with
  | nil => simp [splitChar]
  | cons c cs =>
    simp only [splitChar]
    cases splitChar sep cs with
    | nil => simp
    | cons t ts =>
      by_cases h : c = sep <;> simp [h]

theorem splitChar_not_mem (sep : Char) (l : List Char) (h : sep ∉ l) :
    splitChar sep l = [l] := by
  induction l with
  | nil => rfl
  | cons c cs ih =>
    have h1 : c ≠ sep := fun hc => h (by rw [hc]; exact List.mem_cons_self _ _)
    have h2 : sep ∉ cs := fun hm => h (List.mem_cons_of_mem _ hm)
    simp only [splitChar, ih h2, if_neg h1]

theorem splitChar_length_of_mem (sep : Char) (l : List Char) (h : sep ∈ l) :
    2 ≤ (splitChar sep l).length := by
  induction l with
  | nil => simp at h
  | cons c cs ih =>
    obtain ⟨t, ts, hts⟩ : ∃ t ts, splitChar sep cs = t :: ts := by
      cases hh : splitChar sep cs with
      | nil => exact absurd hh (splitChar_ne_nil sep cs)
      | cons t ts => exact ⟨t, ts, rfl⟩
    by_cases hc : c = sep
    · simp [splitChar, hts, hc]
    · have hmem : sep ∈ cs := by
        rcases List.mem_cons.mp h with h1 | h1
        · exact absurd h1.symm hc
        · exact h1
      have := ih hmem
      rw [hts] at this
      simp at this
      simp [splitChar, hts, hc]
      omega

theorem splitChar_getLastD_append (sep : Char) (l₂ : List Char) (l₁ : List Char) :
    (splitChar sep (l₁ ++ sep :: l₂)).getLastD [] = (splitChar sep l₂).getLastD [] := by
  induction l₁ with
  | nil =>
    obtain ⟨t, ts, hts⟩ : ∃ t ts, splitChar sep l₂ = t :: ts := by
      cases hh : splitChar sep l₂ with
      | nil => exact absurd hh (splitChar_ne_nil sep l₂)
      | cons t ts => exact ⟨t, ts, rfl⟩
    simp [splitChar, hts, List.getLastD_cons]
  | cons x l₁ ih =>
    obtain ⟨t, ts, hts⟩ : ∃ t ts, splitChar sep (l₁ ++ sep :: l₂) = t :: ts := by
      cases hh : splitChar sep (l₁ ++ sep :: l₂) with
      | nil => exact absurd hh (splitChar_ne_nil sep _)
      | cons t ts => exact ⟨t, ts, rfl⟩
    have hlen : 2 ≤ (splitChar sep (l₁ ++ sep :: l₂)).length :=
      splitChar_length_of_mem sep _ (by simp)
    rw [hts] at hlen
    obtain ⟨z, zs, hzs⟩ : ∃ z zs, ts = z :: zs := by
      cases ts with
      | nil => simp at hlen
      | cons z zs => exact ⟨z, zs, rfl⟩
    rw [hts, hzs] at ih
    subst hzs
    show (splitChar sep (x :: (l₁ ++ sep :: l₂))).getLastD [] = _
    simp only [splitChar, hts]
    by_cases hx : x = sep <;> simp [hx, List.getLastD_cons] <;>
      simpa [List.getLastD_cons] using ih

theorem startsWithList_eq_append {p l : List Char} (h : startsWithList p l = true) :
    l = p ++ l.drop p.length := by
  induction p generalizing l with
  | nil => simp
  | cons a ps ih =>
    cases l with
    | nil => simp [startsWithList] at h
    | cons c cs =>
      simp [startsWithList] at h
      obtain ⟨rfl, h2⟩ := h
      simpa using ih h2

theorem captureAfter_eq_some {pat l c : List Char} (h : captureAfter pat l = some c) :
    ∃ pre, l = pre ++ (pat ++ c) := by
  induction l with
  | nil =>
    by_cases hp : pat = []
    · subst hp
      simp [captureAfter] at h
      exact ⟨[], by simp [h]⟩
    · simp [captureAfter, hp] at h
  | cons x cs ih =>
    by_cases hs : startsWithList pat (x :: cs) = true
    · simp only [captureAfter, if_pos hs] at h
      obtain ⟨hc⟩ := h
      exact ⟨[], by simpa using startsWithList_eq_append hs⟩
    · simp only [captureAfter, if_neg hs] at h
      obtain ⟨pre, hpre⟩ := ih h
      exact ⟨x :: pre, by simp [hpre]⟩

theorem capture_service_shape {l c : List Char}
    (h : captureAfter "/service/".data l = some c) :
    ∃ pre, l = pre ++ '/' :: c := by
  obtain ⟨pre, hpre⟩ := captureAfter_eq_some h
  refine ⟨pre ++ "/service".data, ?_⟩
  rw [hpre]
  have hsvc : "/service/".data = "/service".data ++ ['/'] := by decide
  rw [hsvc]
  simp

/-! Claim theorems. -/

/-- C2: for every token absent from the binding table — never bound, or bound
and then unbound — responseHandler fails with the "Could not find response
callback" error and invokes no handler (the error result carries none). -/
theorem responseHandlerUnboundFails {H : Type} (id : String) (s : SRState H)
    (h : mapGet s.callbacks id = none) :
    responseHandler id s = .error ("Could not find response callback for UUID " ++ id) := by
  unfold responseHandler
  rw [h]

/-- Witness for C2, on a state reached by binding "tok1" and then unbinding
its callback URL: invoking the unbound token fails with the not-found error. -/
theorem responseHandlerUnboundFails_witness :
    responseHandler "tok1"
      (unbindResponseUrl "http://example.com/service/tok1"
        (⟨some "http://example.com/service/", [("tok1", 5)]⟩ : SRState Nat)) =
      .error "Could not find response callback for UUID tok1" :=
  responseHandlerUnboundFails "tok1" _ (by decide)

/-- C3: a successful responseHandler invocation on a bound token returns the
stored handler and exactly the input state: the binding table is unchanged,
so the token stays bound, a repeated invocation returns the same handler
again, and only an explicit unbindResponseUrl removes the entry. -/
theorem responseHandlerKeepsBinding {H : Type} (id : String) (s : SRState H) (f : H)
    (h : mapGet s.callbacks id = some f) :
    responseHandler id s = .ok (f, s) := by
  unfold responseHandler
  rw [h]

/-- Witness for C3: with "tok1" bound to handler 5, invoking returns handler 5
and the unchanged state, so a repeat invocation behaves identically. -/
theorem responseHandlerKeepsBinding_witness :
    responseHandler "tok1" (⟨some "http://example.com/service/", [("tok1", 5)]⟩ : SRState Nat) =
      .ok (5, ⟨some "http://example.com/service/", [("tok1", 5)]⟩) :=
  responseHandlerKeepsBinding "tok1" _ 5 (by decide)

/-- C4 fails on the code: configure accepts a base URL with no trailing slash
and stores it verbatim (the slash-normalized newUrl it computes is dropped),
so bindResponseUrl returns base and token concatenated with no '/' separator:
"http://example.com/serviceabc" instead of "http://example.com/service/abc". -/
theorem bindUrlMissingSeparator :
    configure (some "http://example.com/service") (⟨none, []⟩ : SRState Nat) =
      .ok ⟨some "http://example.com/service", []⟩ ∧
    bindResponseUrl "abc" (0 : Nat) ⟨some "http://example.com/service", []⟩ =
      .ok ("http://example.com/serviceabc",
        ⟨some "http://example.com/service", [("abc", 0)]⟩) :=
  ⟨by decide, by decide⟩

/-- C5 fails on the code: after configure stores "http://example.com/service"
verbatim, a second configure call with the very same base URL value throws,
because the stored raw value is compared against the slash-normalized newUrl
of the new call. -/
theorem configureSameValueThrows :
    configure (some "http://example.com/service") (⟨none, []⟩ : SRState Nat) =
      .ok ⟨some "http://example.com/service", []⟩ ∧
    configure (some "http://example.com/service")
      (⟨some "http://example.com/service", []⟩ : SRState Nat) =
      .error "ServiceResponse baseUrl http://example.com/service would be overwritten by http://example.com/service" :=
  ⟨by decide, by decide⟩

/-- C7: when validate returns a non-empty error list, save fails with the
validation error carrying exactly that list, and issues no database write. -/
theorem recordSaveInvalidThrows {α : Type} (validate : Record α → Option (List String))
    (now generatedId : Nat) (r : Record α) (es : List String)
    (hv : validate r = some es) (hne : es ≠ []) :
    Record.save validate now generatedId r = .error (.invalid es) := by
  unfold Record.save
  rw [hv]

/-- Witness for C7: a validator reporting ["bad field"] makes save fail with
that list. -/
theorem recordSaveInvalidThrows_witness :
    Record.save (fun _ => some ["bad field"]) 10 1
      (⟨none, none, none, ()⟩ : Record Unit) = .error (.invalid ["bad field"]) :=
  recordSaveInvalidThrows _ 10 1 _ ["bad field"] rfl (by decide)

/-- C9: when validate returns a non-null error list (empty included — JS
treats an empty array as truthy), save throws before any database write and
before any mutation: the error result carries no updated record and no
DbWrite, so id, createdAt, updatedAt and the other fields keep their values. -/
theorem recordSaveInvalidNoMutation {α : Type} (validate : Record α → Option (List String))
    (now generatedId : Nat) (r : Record α) (es : List String)
    (hv : validate r = some es) :
    Record.save validate now generatedId r = .error (.invalid es) ∧
    (Record.save validate now generatedId r).isOk = false := by
  unfold Record.save
  rw [hv]
  exact ⟨rfl, rfl⟩

/-- Witness for C9: a validator reporting the empty (yet non-null) list makes
save fail without producing a record or a write. -/
theorem recordSaveInvalidNoMutation_witness :
    Record.save (fun _ => some []) 10 1
      (⟨some 3, some 1, some 2, ()⟩ : Record Unit) = .error (.invalid []) ∧
    (Record.save (fun _ => some []) 10 1
      (⟨some 3, some 1, some 2, ()⟩ : Record Unit)).isOk = false :=
  recordSaveInvalidNoMutation _ 10 1 _ [] rfl

/-- Evaluation of save on a valid, not-yet-created record: the insert path. -/
theorem save_ok_insert {α : Type} (validate : Record α → Option (List String))
    (now gid : Nat) (r : Record α)
    (hv : validate r = none) (hc : r.createdAt = none) :
    Record.save validate now gid r =
      .ok (⟨some gid, some now, some now, r.fields⟩,
        .insert ⟨r.id, some now, some now, r.fields⟩) := by
  unfold Record.save
  rw [hv]
  simp [hc]

/-- Evaluation of save on a valid, already-created record: the update path. -/
theorem save_ok_update {α : Type} (validate : Record α → Option (List String))
    (now gid : Nat) (r : Record α) (c : Nat)
    (hv : validate r = none) (hc : r.createdAt = some c) :
    Record.save validate now gid r =
      .ok ({ r with updatedAt := some now },
        .update r.id { r with updatedAt := some now }) := by
  unfold Record.save
  rw [hv]
  simp [hc]

/-- C6: a first save of a valid record with unset id and createdAt inserts,
stamping createdAt and updatedAt with the clock and populating id with the
database-generated key; a second save of the resulting instance updates the
row keyed by that id, keeps createdAt, and moves updatedAt to the (no
earlier) second clock reading.  Each call produces exactly one DbWrite, the
insert one exactly when the record's createdAt identity field is unset. -/
theorem recordSaveInsertThenUpdate {α : Type} (validate : Record α → Option (List String))
    (r : Record α) (now1 gid1 now2 gid2 : Nat)
    (hvalid : validate r = none) (hid : r.id = none) (hcreated : r.createdAt = none)
    (hvalid2 : validate ⟨some gid1, some now1, some now1, r.fields⟩ = none)
    (hclock : now1 ≤ now2) :
    Record.save validate now1 gid1 r =
      .ok (⟨some gid1, some now1, some now1, r.fields⟩,
        .insert ⟨none, some now1, some now1, r.fields⟩) ∧
    Record.save validate now2 gid2 ⟨some gid1, some now1, some now1, r.fields⟩ =
      .ok (⟨some gid1, some now1, some now2, r.fields⟩,
        .update (some gid1) ⟨some gid1, some now1, some now2, r.fields⟩) := by
  constructor
  · rw [save_ok_insert validate now1 gid1 r hvalid hcreated, hid]
  · rw [save_ok_update validate now2 gid2 _ now1 hvalid2 rfl]

/-- Witness for C6: first save inserts and stamps id 1 and time 10; second
save at time 20 updates row 1, keeping createdAt 10 and advancing updatedAt. -/
theorem recordSaveInsertThenUpdate_witness :
    Record.save (fun _ => none) 10 1 (⟨none, none, none, ()⟩ : Record Unit) =
      .ok (⟨some 1, some 10, some 10, ()⟩, .insert ⟨none, some 10, some 10, ()⟩) ∧
    Record.save (fun _ => none) 20 2 (⟨some 1, some 10, some 10, ()⟩ : Record Unit) =
      .ok (⟨some 1, some 10, some 20, ()⟩, .update (some 1) ⟨some 1, some 10, some 20, ()⟩) :=
  recordSaveInsertThenUpdate (fun _ => none) ⟨none, none, none, ()⟩ 10 1 20 2
    rfl rfl rfl rfl (by decide)

/-- Invariant carried along a chain of saves of an already-stamped record:
createdAt never changes and updatedAt tracks the (nondecreasing) clock. -/
theorem saveChain_stamped {α : Type} (validate : Record α → Option (List String)) :
    ∀ (steps : List (Nat × Nat)) (r r' : Record α) (c u : Nat),
      r.createdAt = some c → r.updatedAt = some u →
      List.Chain' (· ≤ ·) (u :: steps.map Prod.fst) →
      saveChain validate steps r = some r' →
      r'.createdAt = some c ∧
      r'.updatedAt = some ((steps.map Prod.fst).getLastD u) ∧
      u ≤ (steps.map Prod.fst).getLastD u := by
  intro steps
  induction steps with
  | nil =>
    intro r r' c u hc hu _ hchain
    simp [saveChain] at hchain
    subst hchain
    simp [hc, hu]
  | cons p rest ih =>
    obtain ⟨now, gid⟩ := p
    intro r r' c u hc hu hmono hchain
    simp only [saveChain] at hchain
    cases hv : validate r with
    | some es =>
      unfold Record.save at hchain
      rw [hv] at hchain
      simp at hchain
    | none =>
      rw [save_ok_update validate now gid r c hv hc] at hchain
      simp only [List.map_cons, List.chain'_cons] at hmono
      have hres := ih { r with updatedAt := some now } r' c now (by simp [hc]) (by simp)
        (by simpa using hmono.2) (by simpa using hchain)
      refine ⟨hres.1, ?_, ?_⟩
      · rw [List.map_cons, List.getLastD_cons]
        exact hres.2.1
      · rw [List.map_cons, List.getLastD_cons]
        exact le_trans hmono.1 hres.2.2

/-- C8: across a chain of successful saves with a nondecreasing clock,
starting from a never-saved record, createdAt ends at the value the first
save stamped, and updatedAt ends at the last clock reading, which the first
reading bounds from below (each save writes that call's clock value, so
consecutive updatedAt values follow the nondecreasing clock). -/
theorem saveChainCreatedAtImmutable {α : Type} (validate : Record α → Option (List String))
    (n g : Nat) (rest : List (Nat × Nat)) (r r' : Record α)
    (hcreated : r.createdAt = none)
    (hmono : List.Chain' (· ≤ ·) (((n, g) :: rest).map Prod.fst))
    (hchain : saveChain validate ((n, g) :: rest) r = some r') :
    r'.createdAt = some n ∧
    r'.updatedAt = some ((rest.map Prod.fst).getLastD n) ∧
    n ≤ (rest.map Prod.fst).getLastD n := by
  simp only [saveChain] at hchain
  cases hv : validate r with
  | some es =>
    unfold Record.save at hchain
    rw [hv] at hchain
    simp at hchain
  | none =>
    rw [save_ok_insert validate n g r hv hcreated] at hchain
    exact saveChain_stamped validate rest _ r' n n rfl rfl
      (by simpa using hmono) (by simpa using hchain)

/-- Witness for C8: two saves at clock readings 5 then 7 leave createdAt at 5
and updatedAt at 7. -/
theorem saveChainCreatedAtImmutable_witness :
    (⟨some 1, some 5, some 7, ()⟩ : Record Unit).createdAt = some 5 ∧
    (⟨some 1, some 5, some 7, ()⟩ : Record Unit).updatedAt =
      some (([(7, 2)].map Prod.fst).getLastD 5) ∧
    5 ≤ ([(7, 2)].map Prod.fst).getLastD 5 :=
  saveChainCreatedAtImmutable (fun _ => none) 5 1 [(7, 2)]
    ⟨none, none, none, ()⟩ ⟨some 1, some 5, some 7, ()⟩
    rfl (by simp [List.chain'_cons]) (by decide)

/-- C10: whenever the comma-split collectionId parameter contains "all"
together with some other id, parseVariables throws the RequestValidationError
saying "all" cannot be specified alongside other variables, for every
collection list, and returns no variable info. -/
theorem parseVariablesAllAloneError (cols : List CmrCollection) (param y : String)
    (hall : "all" ∈ (splitChar ',' param.data).map String.mk)
    (hy : y ∈ (splitChar ',' param.data).map String.mk)
    (hne : y ≠ "all") :
    parseVariables cols param =
      .error (.requestValidation "\"all\" cannot be specified alongside other variables") := by
  have hcontains : ((splitChar ',' param.data).map String.mk).contains "all" = true := by
    simpa using hall
  have hlen : ((splitChar ',' param.data).map String.mk).length ≠ 1 := by
    intro h1
    obtain ⟨a, ha⟩ := List.length_eq_one.mp h1
    rw [ha] at hall hy
    simp at hall hy
    exact hne (hy.trans hall.symm)
  have hlen2 : (splitChar ',' param.data).length ≠ 1 := by
    intro h1
    exact hlen (by simpa using h1)
  unfold parseVariables
  simp only [hcontains, hlen, if_true]
  simp [hlen2]

/-- Witness for C10: the parameter "all,V1" makes parseVariables fail with
the "all must stand alone" validation error, even with no collections. -/
theorem parseVariablesAllAloneError_witness :
    parseVariables [] "all,V1" =
      .error (.requestValidation "\"all\" cannot be specified alongside other variables") :=
  parseVariablesAllAloneError [] "all,V1" "V1" (by decide) (by decide) (by decide)

/-- Evaluation of a successful bindResponseUrl call: the returned URL is the
stored base URL concatenated with the token, and the callback is stored. -/
theorem bindResponseUrl_ok {H : Type} {token b : String} {f : H} {s : SRState H}
    {url : String} {s' : SRState H}
    (hb : s.baseUrl = some b)
    (hbind : bindResponseUrl token f s = .ok (url, s')) :
    url = b ++ token ∧ s' = { s with callbacks := mapSet s.callbacks token f } := by
  unfold bindResponseUrl at hbind
  rw [hb] at hbind
  by_cases hbe : b = ""
  · simp [hbe] at hbind
  · simp [hbe] at hbind
    refine ⟨hbind.1.symm, ?_⟩
    rw [hb]
    exact hbind.2.symm

/-- C1 fails as stated: with base URL "http://example.com/cb/" configured,
binding handler 0 succeeds and returns "http://example.com/cb/tok1", yet
isUrlBound on that very URL is false, because the lookup regex recognizes
only URLs containing "/service/". -/
theorem bindThenIsBoundFalseOnPlainBase :
    bindResponseUrl "tok1" (0 : Nat) ⟨some "http://example.com/cb/", []⟩ =
      .ok ("http://example.com/cb/tok1", ⟨some "http://example.com/cb/", [("tok1", 0)]⟩) ∧
    isUrlBound "http://example.com/cb/tok1"
      (⟨some "http://example.com/cb/", [("tok1", 0)]⟩ : SRState Nat) = false :=
  ⟨by decide, by decide⟩

/-- C1 (amended): in a state whose configured base URL lets the lookup regex
recover the fresh token from the returned URL (the text after the first
"/service/" of base-plus-token is the token, as with a base URL ending in
"/service/" and a UUID token), bindResponseUrl then isUrlBound on the URL it
returned yields true; and for every URL u, in a registry whose bound tokens
are distinct and slash-free (as UUIDs are), unbindResponseUrl(u) then
isUrlBound(u) yields false. -/
theorem bindIsBoundUnbindNotBound {H : Type} (f : H) (s t : SRState H)
    (b token url u : String) (s' : SRState H)
    (hb : s.baseUrl = some b)
    (hbind : bindResponseUrl token f s = .ok (url, s'))
    (hext : extractUuid (b ++ token) = some token)
    (hkeys : ∀ p ∈ t.callbacks, '/' ∉ p.1.data)
    (hnodup : (t.callbacks.map Prod.fst).Nodup) :
    isUrlBound url s' = true ∧ isUrlBound u (unbindResponseUrl u t) = false := by
  constructor
  · obtain ⟨hurl, hs'⟩ := bindResponseUrl_ok hb hbind
    subst hurl
    subst hs'
    simp only [isUrlBound, hext]
    rw [mapGet_mapSet_self]
    rfl
  · cases hcap : extractUuid u with
    | none => simp [isUrlBound, hcap]
    | some c =>
      obtain ⟨cl⟩ := c
      have hcap2 : captureAfter "/service/".data u.data = some cl := by
        unfold extractUuid at hcap
        cases hh : captureAfter "/service/".data u.data with
        | none => rw [hh] at hcap; simp at hcap
        | some cl' =>
          rw [hh] at hcap
          simp at hcap
          exact congrArg (fun q => some q.data) hcap
      obtain ⟨pre, hpre⟩ := capture_service_shape hcap2
      have hune : u ≠ "" := by
        intro he
        rw [he] at hpre
        simp at hpre
      simp only [isUrlBound, hcap]
      unfold unbindResponseUrl
      rw [if_neg hune]
      show (mapGet (mapDelete t.callbacks (lastSegment u)) (String.mk cl)).isSome = false
      by_cases hsl : '/' ∈ cl
      · cases hget : mapGet (mapDelete t.callbacks (lastSegment u)) (String.mk cl) with
        | none => simp [hget]
        | some v =>
          have hmem : (String.mk cl, v) ∈ t.callbacks :=
            (mapDelete_sublist t.callbacks (lastSegment u)).subset
              (mem_of_mapGet_eq_some hget)
          exact absurd hsl (hkeys _ hmem)
      · have hlast : lastSegment u = String.mk cl := by
          unfold lastSegment
          rw [hpre, splitChar_getLastD_append '/' cl pre, splitChar_not_mem '/' cl hsl]
          rfl
        rw [hlast, mapGet_mapDelete_self t.callbacks (String.mk cl) hnodup]
        rfl

/-- Witness for the amended C1: base URL "http://example.com/service/" and
token "abc123"; binding yields a URL that isUrlBound reports as bound, and
after unbinding that URL isUrlBound reports it unbound. -/
theorem bindIsBoundUnbindNotBound_witness :
    isUrlBound "http://example.com/service/abc123"
      (⟨some "http://example.com/service/", [("abc123", 7)]⟩ : SRState Nat) = true ∧
    isUrlBound "http://example.com/service/abc123"
      (unbindResponseUrl "http://example.com/service/abc123"
        (⟨some "http://example.com/service/", [("abc123", 7)]⟩ : SRState Nat)) = false :=
  bindIsBoundUnbindNotBound 7 ⟨some "http://example.com/service/", []⟩
    ⟨some "http://example.com/service/", [("abc123", 7)]⟩
    "http://example.com/service/" "abc123" "http://example.com/service/abc123"
    "http://example.com/service/abc123"
    ⟨some "http://example.com/service/", [("abc123", 7)]⟩
    rfl (by decide) (by decide) (by decide) (by decide)

end Harmony
